import Mathlib

/-!
# Verification of the layer-harvester extraction core

A shallow embedding of `harvester/core.py` and `harvester/pdf.py`:
JSON values are modelled by the inductive type `JVal`, Python dictionaries
by insertion-ordered association lists, Python numbers (int/float) by `ℚ`,
and code that can raise by `Except Unit`.  Definitions follow the Python
source line by line; claim-side specification functions are clearly marked.
-/

namespace Harvester

/-- A parsed JSON value (the trees `json.load` hands to the harvester).
Numbers are modelled by `ℚ`; Python booleans and `None` are separate
constructors because the source distinguishes them via `isinstance` and
truthiness. Objects are insertion-ordered association lists, as Python
dicts are. -/
inductive JVal where
  | null : JVal
  | bool : Bool → JVal
  | num  : ℚ → JVal
  | str  : String → JVal
  | arr  : List JVal → JVal
  | obj  : List (String × JVal) → JVal

namespace JVal

/-- Python truthiness: `None`, `False`, `0`, `""`, `[]`, `{}` are falsy. -/
def truthy : JVal → Bool
  | .null    => false
  | .bool b  => b
  | .num q   => q != 0
  | .str s   => s.length != 0
  | .arr xs  => !xs.isEmpty
  | .obj fs  => !fs.isEmpty

end JVal

mutual

/-- Structural equality test for JSON values (Python `==` on the data this
tool consumes; tags and keys are strings, so Python's numeric cross-type
equalities play no role). -/
def jvalBeq : JVal → JVal → Bool
  | .null, .null => true
  | .bool a, .bool b => a == b
  | .num a, .num b => a == b
  | .str a, .str b => a == b
  | .arr a, .arr b => jvalListBeq a b
  | .obj a, .obj b => jvalFieldsBeq a b
  | _, _ => false

def jvalListBeq : List JVal → List JVal → Bool
  | [], [] => true
  | x :: xs, y :: ys => jvalBeq x y && jvalListBeq xs ys
  | _, _ => false

def jvalFieldsBeq : List (String × JVal) → List (String × JVal) → Bool
  | [], [] => true
  | (k, v) :: xs, (k', v') :: ys => k == k' && jvalBeq v v' && jvalFieldsBeq xs ys
  | _, _ => false

end

mutual

theorem jvalBeq_iff : ∀ a b : JVal, jvalBeq a b = true ↔ a = b
  | .null, b => by cases b <;> simp [jvalBeq]
  | .bool x, b => by cases b <;> simp [jvalBeq]
  | .num x, b => by cases b <;> simp [jvalBeq]
  | .str x, b => by cases b <;> simp [jvalBeq]
  | .arr xs, b => by
      cases b with
      | arr ys => simpa [jvalBeq] using jvalListBeq_iff xs ys
      | null => simp [jvalBeq]
      | bool y => simp [jvalBeq]
      | num y => simp [jvalBeq]
      | str y => simp [jvalBeq]
      | obj gs => simp [jvalBeq]
  | .obj fs, b => by
      cases b with
      | obj gs => simpa [jvalBeq] using jvalFieldsBeq_iff fs gs
      | null => simp [jvalBeq]
      | bool y => simp [jvalBeq]
      | num y => simp [jvalBeq]
      | str y => simp [jvalBeq]
      | arr ys => simp [jvalBeq]

theorem jvalListBeq_iff : ∀ a b : List JVal, jvalListBeq a b = true ↔ a = b
  | [], b => by cases b <;> simp [jvalListBeq]
  | x :: xs, b => by
      cases b with
      | nil => simp [jvalListBeq]
      | cons y ys =>
          simp [jvalListBeq, jvalBeq_iff x y, jvalListBeq_iff xs ys]

theorem jvalFieldsBeq_iff :
    ∀ a b : List (String × JVal), jvalFieldsBeq a b = true ↔ a = b
  | [], b => by cases b <;> simp [jvalFieldsBeq]
  | (k, v) :: xs, b => by
      cases b with
      | nil => simp [jvalFieldsBeq]
      | cons p ys =>
          cases p with
          | mk k' v' =>
              simp [jvalFieldsBeq, jvalBeq_iff v v', jvalFieldsBeq_iff xs ys,
                and_assoc]

end

instance : DecidableEq JVal := fun a b => decidable_of_iff _ (jvalBeq_iff a b)

deriving instance DecidableEq for Except

/-- `d.get(k)` on a Python dict: first binding wins, `None` when absent. -/
def dictGet (fs : List (String × JVal)) (k : String) : Option JVal :=
  match fs with
  | [] => none
  | (k', v) :: rest => if k' = k then some v else dictGet rest k

/-- `d.get(k, default)` on a Python dict. -/
def dictGetD (fs : List (String × JVal)) (k : String) (d : JVal) : JVal :=
  (dictGet fs k).getD d

/-- `d.get(k) or fallback`: the Python `or` replaces a falsy value. -/
def dictGetOr (fs : List (String × JVal)) (k : String) (fallback : JVal) : JVal :=
  match dictGet fs k with
  | none => fallback
  | some v => if v.truthy then v else fallback

/-- Lower-case a string character-wise (Python `str.lower` on ASCII data). -/
def strLower (s : String) : String := ⟨s.data.map Char.toLower⟩

/-- Contiguous-sublist test on character lists. -/
def listIsInfix (needle : List Char) : List Char → Bool
  | [] => needle.isEmpty
  | c :: t => needle.isPrefixOf (c :: t) || listIsInfix needle t

/-- `needle in haystack` on Python strings: contiguous substring test. -/
def strContains (haystack needle : String) : Bool :=
  listIsInfix needle.data haystack.data

/-- `s.startswith (p)` on Python strings. -/
def strStartsWith (s p : String) : Bool :=
  p.data.isPrefixOf s.data

/-- `s[n:]` on a Python string (drop the first `n` characters). -/
def strDrop (s : String) (n : Nat) : String := ⟨s.data.drop n⟩

/-- Python `str.strip()`: remove leading and trailing whitespace. -/
def strStrip (s : String) : String :=
  ⟨((s.data.dropWhile Char.isWhitespace).reverse.dropWhile Char.isWhitespace).reverse⟩

mutual

/-- Python `str(v)` for a JSON value: strings render as themselves,
containers via `repr` of their elements. -/
def pyStr : JVal → String
  | .null    => "None"
  | .bool b  => if b then "True" else "False"
  | .num q   => toString q
  | .str s   => s
  | .arr xs  => "[" ++ ", ".intercalate (pyReprList xs) ++ "]"
  | .obj fs  => "\x7b" ++ ", ".intercalate (pyReprFields fs) ++ "\x7d"

/-- Python `repr(v)`: like `str` but strings are quoted. -/
def pyRepr : JVal → String
  | .str s => "'" ++ s ++ "'"
  | v      => pyStr v

def pyReprList : List JVal → List String
  | [] => []
  | v :: rest => pyRepr v :: pyReprList rest

def pyReprFields : List (String × JVal) → List String
  | [] => []
  | (k, v) :: rest => ("'" ++ k ++ "': " ++ pyRepr v) :: pyReprFields rest

end

/-- One step of a decimal-digit parser: `acc * 10 + d` over a digit list. -/
def digitsVal (ds : List Char) : Nat :=
  ds.foldl (fun acc c => acc * 10 + (c.toNat - '0'.toNat)) 0

/-- Parse an unsigned decimal `digits [. digits]` body into a rational. -/
def parseDecBody (ds : List Char) : Option ℚ :=
  let intPart := ds.takeWhile Char.isDigit
  let rest := ds.dropWhile Char.isDigit
  match rest with
  | [] =>
      if intPart.isEmpty then none
      else some (digitsVal intPart)
  | '.' :: frac =>
      if frac.all Char.isDigit ∧ ¬(intPart.isEmpty ∧ frac.isEmpty) then
        some (digitsVal intPart + (digitsVal frac : ℚ) / (10 ^ frac.length))
      else none
  | _ => none

/-- Model of Python `float(s)` on strings: optional surrounding whitespace,
optional sign, decimal body with optional fraction part (exponents and
`inf`/`nan` spellings are outside the data this tool consumes). `none`
models `ValueError`. -/
def parseFloat (s : String) : Option ℚ :=
  let core := (s.data.dropWhile Char.isWhitespace).reverse.dropWhile Char.isWhitespace |>.reverse
  match core with
  | '-' :: rest => (parseDecBody rest).map Neg.neg
  | '+' :: rest => parseDecBody rest
  | rest => parseDecBody rest

/-- Model of Python `float(v)` on a JSON value: numbers and booleans
convert, numeric strings parse, everything else raises
(`TypeError`/`ValueError`), modelled as `none`. -/
def pyFloat : JVal → Option ℚ
  | .num q  => some q
  | .bool b => some (if b then 1 else 0)
  | .str s  => parseFloat s
  | _       => none

-- ── Constants from `harvester/core.py` ──────────────────────────────────────

def PDF_HAZARD_PREFIX : String := "pdf:hazardlookup:"

def NO_PDF_LABEL : String := "not attached to PDF V2"

def GLOBAL_LON_THRESHOLD : ℚ := 340

def GLOBAL_LAT_THRESHOLD : ℚ := 120

/-- `is_global_bbox` from `core.py`: spans computed after `float`
conversion; any failed conversion is caught and yields `False`. -/
def is_global_bbox (west east north south : JVal) : Bool :=
  match pyFloat east, pyFloat west, pyFloat north, pyFloat south with
  | some fe, some fw, some fn, some fs =>
      decide (fe - fw ≥ GLOBAL_LON_THRESHOLD) && decide (fn - fs ≥ GLOBAL_LAT_THRESHOLD)
  | _, _, _, _ => false

-- quick sanity examples from the spec
example : is_global_bbox (.num (-180)) (.num 180) (.num 90) (.num (-90)) = true := by
  simp [is_global_bbox, pyFloat, GLOBAL_LON_THRESHOLD, GLOBAL_LAT_THRESHOLD]
  norm_num
example : is_global_bbox (.num (-10)) (.num 10) (.num 10) (.num (-10)) = false := by
  simp [is_global_bbox, pyFloat, GLOBAL_LON_THRESHOLD, GLOBAL_LAT_THRESHOLD]
  norm_num
example : is_global_bbox .null (.num 180) (.num 90) (.num (-90)) = false := by
  simp [is_global_bbox, pyFloat]

/-- **C1.** `is_global_bbox` returns `true` iff all four bounds convert to
floating point and the spans meet the fixed thresholds; a failed
conversion yields `false` (exceptions are caught inside the function). -/
theorem C1_is_global_bbox_spec (west east north south : JVal) :
    is_global_bbox west east north south = true ↔
      ∃ fw fe fn fs : ℚ,
        pyFloat west = some fw ∧ pyFloat east = some fe ∧
        pyFloat north = some fn ∧ pyFloat south = some fs ∧
        fe - fw ≥ 340 ∧ fn - fs ≥ 120 := by
  unfold is_global_bbox
  cases he : pyFloat east <;> cases hw : pyFloat west <;>
    cases hn : pyFloat north <;> cases hs : pyFloat south
  case some.some.some.some fe fw fn fs =>
    constructor
    · intro h
      simp only [Bool.and_eq_true, decide_eq_true_eq] at h
      exact ⟨fw, fe, fn, fs, rfl, rfl, rfl, rfl, h.1, h.2⟩
    · rintro ⟨fw', fe', fn', fs', hfw, hfe, hfn, hfs, h1, h2⟩
      cases hfw; cases hfe; cases hfn; cases hfs
      simp only [Bool.and_eq_true, decide_eq_true_eq]
      exact ⟨h1, h2⟩
  all_goals
    constructor
    · intro h; cases h
    · rintro ⟨fw', fe', fn', fs', hfw, hfe, hfn, hfs, h1, h2⟩
      simp_all

-- ── Tree Scanner (`find_hazard_layers`) ─────────────────────────────────────

mutual

/-- Structural size of a JSON value, used as the termination measure of
the stack-based traversal. -/
def jsize : JVal → Nat
  | .obj fs => 1 + fsize fs
  | .arr xs => 1 + lsize xs
  | _ => 1

def fsize : List (String × JVal) → Nat
  | [] => 0
  | (_, v) :: rest => jsize v + fsize rest

def lsize : List JVal → Nat
  | [] => 0
  | v :: rest => jsize v + lsize rest

end

theorem lsize_append (a b : List JVal) : lsize (a ++ b) = lsize a + lsize b := by
  induction a with
  | nil => simp [lsize]
  | cons x xs ih => simp [lsize, ih]; ring

theorem lsize_reverse (a : List JVal) : lsize a.reverse = lsize a := by
  induction a with
  | nil => rfl
  | cons x xs ih => simp [lsize, lsize_append, ih]; ring

theorem lsize_values (fs : List (String × JVal)) :
    lsize (fs.map Prod.snd) = fsize fs := by
  induction fs with
  | nil => rfl
  | cons p rest ih => cases p; simp [lsize, fsize, ih]

theorem jsize_pos (v : JVal) : 0 < jsize v := by
  cases v <;> simp [jsize]

/-- The match test of the scanner: `node.get("keyword_list") or []` must be
a list with some element whose lower-cased `str()` form contains
`"hazardlookup"`. -/
def hazardMatch (fs : List (String × JVal)) : Bool :=
  match dictGetOr fs "keyword_list" (.arr []) with
  | .arr ks => ks.any (fun k => strContains (strLower (pyStr k)) "hazardlookup")
  | _ => false

/-- `find_hazard_layers` from `core.py`: iterative walk with an explicit
stack (head of the list = top of the stack, so `stack.pop()` is the head
and `stack.extend(vs)` prepends `vs.reverse`); matched dicts are appended
to `results` and not descended into. -/
def find_hazard_layers : List JVal → List JVal → List JVal
  | [], results => results
  | .obj fs :: rest, results =>
      if hazardMatch fs then
        find_hazard_layers rest (results ++ [.obj fs])
      else
        find_hazard_layers ((fs.map Prod.snd).reverse ++ rest) results
  | .arr xs :: rest, results =>
      find_hazard_layers (xs.reverse ++ rest) results
  | _ :: rest, results => find_hazard_layers rest results
  termination_by stack _ => lsize stack
  decreasing_by
  all_goals simp [lsize, lsize_append, lsize_reverse, lsize_values, fsize, jsize]
  all_goals first | omega | exact jsize_pos _

mutual

/-- Claim-side recursive description of the scan: a mapping that matches is
collected and is a leaf of the search; a non-matching mapping is descended
into through all of its values; sequences are descended element-wise;
scalars contribute nothing. -/
def collectSpec : JVal → List JVal
  | .obj fs => if hazardMatch fs then [.obj fs] else collectVals fs
  | .arr xs => collectList xs
  | _ => []

def collectVals : List (String × JVal) → List JVal
  | [] => []
  | (_, v) :: rest => collectSpec v ++ collectVals rest

def collectList : List JVal → List JVal
  | [] => []
  | v :: rest => collectSpec v ++ collectList rest

end

theorem collectList_append (a b : List JVal) :
    collectList (a ++ b) = collectList a ++ collectList b := by
  induction a with
  | nil => rfl
  | cons x xs ih => simp [collectList, ih]

theorem collectList_perm_reverse (a : List JVal) :
    List.Perm (collectList a.reverse) (collectList a) := by
  induction a with
  | nil => exact List.Perm.refl _
  | cons x xs ih =>
      simp only [List.reverse_cons, collectList_append, collectList]
      have h1 : List.Perm (collectList xs.reverse ++ collectList [x])
          (collectList [x] ++ collectList xs.reverse) := List.perm_append_comm
      have h2 : List.Perm (collectList [x] ++ collectList xs.reverse)
          (collectList [x] ++ collectList xs) := List.Perm.append_left _ ih
      have h3 := h1.trans h2
      simpa [collectList] using h3

theorem collectList_values (fs : List (String × JVal)) :
    collectList (fs.map Prod.snd) = collectVals fs := by
  induction fs with
  | nil => rfl
  | cons p rest ih => cases p; simp [collectList, collectVals, ih]

/-- The iterative traversal, started on any stack and accumulator, returns
(up to permutation) the accumulator followed by the recursive collection
of the stack entries. -/
theorem find_hazard_layers_perm (stack results : List JVal) :
    List.Perm (find_hazard_layers stack results) (results ++ collectList stack) := by
  match stack with
  | [] => simp [find_hazard_layers, collectList]
  | .obj fs :: rest =>
      rw [find_hazard_layers]
      by_cases h : hazardMatch fs
      · simp only [h, if_true]
        have h1 := find_hazard_layers_perm rest (results ++ [JVal.obj fs])
        have h2 : results ++ [JVal.obj fs] ++ collectList rest
            = results ++ collectList (JVal.obj fs :: rest) := by
          simp [collectList, collectSpec, h]
        exact h2 ▸ h1
      · simp only [h, if_false]
        have h1 := find_hazard_layers_perm ((fs.map Prod.snd).reverse ++ rest) results
        rw [collectList_append] at h1
        have h2 : List.Perm
            (collectList (fs.map Prod.snd).reverse ++ collectList rest)
            (collectList (fs.map Prod.snd) ++ collectList rest) :=
          List.Perm.append_right _ (collectList_perm_reverse _)
        have h3 := h1.trans (List.Perm.append_left results h2)
        have h4 : results ++ (collectList (fs.map Prod.snd) ++ collectList rest)
            = results ++ collectList (JVal.obj fs :: rest) := by
          simp [collectList, collectSpec, h, collectList_values]
        exact h4 ▸ h3
  | .arr xs :: rest =>
      rw [find_hazard_layers]
      have h1 := find_hazard_layers_perm (xs.reverse ++ rest) results
      rw [collectList_append] at h1
      have h2 : List.Perm (collectList xs.reverse ++ collectList rest)
          (collectList xs ++ collectList rest) :=
        List.Perm.append_right _ (collectList_perm_reverse _)
      have h3 := h1.trans (List.Perm.append_left results h2)
      have h4 : results ++ (collectList xs ++ collectList rest)
          = results ++ collectList (JVal.arr xs :: rest) := by
        simp [collectList, collectSpec]
      exact h4 ▸ h3
  | .null :: rest =>
      rw [find_hazard_layers]
      · have h1 := find_hazard_layers_perm rest results
        simpa [collectList, collectSpec] using h1
      · exact fun fs h => JVal.noConfusion h
      · exact fun xs h => JVal.noConfusion h
  | .bool b :: rest =>
      rw [find_hazard_layers]
      · have h1 := find_hazard_layers_perm rest results
        simpa [collectList, collectSpec] using h1
      · exact fun fs h => JVal.noConfusion h
      · exact fun xs h => JVal.noConfusion h
  | .num q :: rest =>
      rw [find_hazard_layers]
      · have h1 := find_hazard_layers_perm rest results
        simpa [collectList, collectSpec] using h1
      · exact fun fs h => JVal.noConfusion h
      · exact fun xs h => JVal.noConfusion h
  | .str s :: rest =>
      rw [find_hazard_layers]
      · have h1 := find_hazard_layers_perm rest results
        simpa [collectList, collectSpec] using h1
      · exact fun fs h => JVal.noConfusion h
      · exact fun xs h => JVal.noConfusion h
  termination_by lsize stack
  decreasing_by
  all_goals simp [lsize, lsize_append, lsize_reverse, lsize_values, fsize, jsize]

/-- **C2.** `find_hazard_layers`, run as the callers run it (singleton
stack holding the root, empty result list), collects exactly — up to
traversal order — the mapping nodes described by the claim: `collectSpec`
records a mapping iff its `keyword_list` is a sequence with an element
whose case-insensitive string form contains `"hazardlookup"` (a
`keyword_list` of any other shape is no match, not an error), prunes the
children of a matched node, descends into all values of a non-matching
mapping and into every element of a sequence. -/
theorem C2_find_hazard_layers_collects_spec (root : JVal) :
    List.Perm (find_hazard_layers [root] []) (collectSpec root) := by
  have h := find_hazard_layers_perm [root] []
  simpa [collectList] using h

-- ── Row Extractor (`extract_row`) ───────────────────────────────────────────

/-- Is this JSON value a Python `str`? -/
def JVal.isStrB : JVal → Bool
  | .str _ => true
  | _ => false

/-- Is this JSON value a Python `dict`? -/
def JVal.isObjB : JVal → Bool
  | .obj _ => true
  | _ => false

/-- The underlying string of a `str` value (only used under `isStrB`). -/
def JVal.asStr : JVal → String
  | .str s => s
  | _ => ""

/-- Python `iter(v)`: lists yield their elements, strings their characters,
dicts their keys; scalars raise `TypeError` (modelled as `.error`). -/
def pyIterate : JVal → Except Unit (List JVal)
  | .arr xs => .ok xs
  | .str s => .ok (s.data.map (fun c => .str ⟨[c]⟩))
  | .obj fs => .ok (fs.map (fun p => .str p.1))
  | _ => .error ()

/-- Python `sep.join(xs)`: raises `TypeError` when any element is not a
string. -/
def pyJoinStrs (sep : String) (xs : List JVal) : Except Unit String :=
  if xs.all JVal.isStrB then .ok (sep.intercalate (xs.map JVal.asStr))
  else .error ()

/-- `bbox` of `extract_row`: `layer.get("ex_geographic_bounding_box") or
\x7b\x7d`, forced to `\x7b\x7d` when not a dict. -/
def bboxOf (layer : List (String × JVal)) : List (String × JVal) :=
  match dictGetOr layer "ex_geographic_bounding_box" (.obj []) with
  | .obj fs => fs
  | _ => []

/-- `style_names` of `extract_row`: `", ".join(s.get("name", "") for s in
styles if isinstance(s, dict))` when `styles` is a list, else `""`; the
join raises when some style's `name` is not a string. -/
def styleNamesOf (layer : List (String × JVal)) : Except Unit String :=
  match dictGetOr layer "style" (.arr []) with
  | .arr ss => pyJoinStrs ", "
      ((ss.filter JVal.isObjB).map (fun s => match s with
        | .obj fs => dictGetD fs "name" (.str "")
        | _ => .str ""))
  | _ => .ok ""

/-- `crs_str` of `extract_row`: `", ".join(crs)` when `CRS` is a list
(raising on non-string entries), `str(crs)` otherwise. -/
def crsStrOf (layer : List (String × JVal)) : Except Unit String :=
  match dictGetOr layer "CRS" (.arr []) with
  | .arr cs => pyJoinStrs ", " cs
  | v => .ok (pyStr v)

/-- `kw` of `extract_row`: `layer.get("keyword_list") or []`. -/
def kwOf (layer : List (String × JVal)) : JVal :=
  dictGetOr layer "keyword_list" (.arr [])

/-- `kw_str` of `extract_row`: comma-join of `str(k)` when `kw` is a
list, `str(kw)` otherwise. -/
def kwStrOf (layer : List (String × JVal)) : String :=
  match kwOf layer with
  | .arr ks => ", ".intercalate (ks.map pyStr)
  | v => pyStr v

/-- The `next(...)` expression of `extract_row`: first element (of the
already-iterated keyword values) that is a string whose lower-cased form
starts with the PDF prefix, lowered and with the prefix removed; the
sentinel label when the generator is exhausted. -/
def pdfV2Of (kwElems : List JVal) : String :=
  (kwElems.findSome? (fun k => match k with
    | .str s =>
        if strStartsWith (strLower s) PDF_HAZARD_PREFIX
        then some (strDrop (strLower s) PDF_HAZARD_PREFIX.length)
        else none
    | _ => none)).getD NO_PDF_LABEL

/-- `extract_row` from `core.py`, with every place the Python can raise
modelled in `Except`:

* `style_names` raises when a style's `name` is not a string;
* `crs_str` raises when `CRS` is a list holding a non-string;
* `pdf_v2`: the `next(... for k in kw ...)` generator iterates `kw`
  without an `isinstance(kw, list)` guard, raising when `keyword_list` is
  a truthy non-iterable;
* `abstract`: `(... or "").strip()` raises when `abstract` is a truthy
  non-string.

The returned dict lists the fields in source order. -/
def extract_row (layer : List (String × JVal)) :
    Except Unit (List (String × JVal)) :=
  let bbox := bboxOf layer
  let west  := dictGetD bbox "west_bound_longitude" (.str "")
  let east  := dictGetD bbox "east_bound_longitude" (.str "")
  let north := dictGetD bbox "north_bound_latitude" (.str "")
  let south := dictGetD bbox "south_bound_latitude" (.str "")
  match styleNamesOf layer with
  | .error e => .error e
  | .ok style_names =>
    match crsStrOf layer with
    | .error e => .error e
    | .ok crs_str =>
      match pyIterate (kwOf layer) with
      | .error e => .error e
      | .ok kwElems =>
        match dictGetOr layer "abstract" (.str "") with
        | .str a =>
            let global_flag := is_global_bbox west east north south
            .ok [ ("name",         dictGetD layer "name" (.str "")),
                  ("title",        dictGetD layer "title" (.str "")),
                  ("abstract",     .str (strStrip a)),
                  ("queryable",    dictGetD layer "queryable" (.str "")),
                  ("crs",          .str crs_str),
                  ("west_bound",   west),
                  ("east_bound",   east),
                  ("north_bound",  north),
                  ("south_bound",  south),
                  ("is_global",    .str (if global_flag then "Yes" else "No")),
                  ("_global",      .bool global_flag),
                  ("pdf_v2",       .str (pdfV2Of kwElems)),
                  ("style_names",  .str style_names),
                  ("keyword_list", .str (kwStrOf layer)) ]
        | _ => .error ()

/-- Claim-side secondary-tag derivation: the first element of the keyword
sequence that is a string whose case-insensitive form starts with
`"pdf:hazardlookup:"` determines the tag — everything after the prefix,
lower-cased; the sentinel when no such element exists. -/
def pdfTagSpec : List JVal → String
  | [] => NO_PDF_LABEL
  | .str s :: rest =>
      if strStartsWith (strLower s) PDF_HAZARD_PREFIX
      then strLower (strDrop s PDF_HAZARD_PREFIX.length)
      else pdfTagSpec rest
  | _ :: rest => pdfTagSpec rest

theorem strLower_strDrop (s : String) (n : Nat) :
    strLower (strDrop s n) = strDrop (strLower s) n := by
  simp only [strLower, strDrop]
  congr 1
  induction n generalizing s with
  | zero => simp
  | succ m ih =>
      cases hs : s.data with
      | nil => simp
      | cons c t => simp [ih ⟨t⟩]

/-- The code's scan of the keyword elements equals the claim-side tag. -/
theorem pdfV2Of_eq_spec (ks : List JVal) : pdfV2Of ks = pdfTagSpec ks := by
  induction ks with
  | nil => rfl
  | cons k rest ih =>
      cases k with
      | str s =>
          by_cases h : strStartsWith (strLower s) PDF_HAZARD_PREFIX = true
          · simp [pdfV2Of, List.findSome?, h, pdfTagSpec, strLower_strDrop]
          · simp only [Bool.not_eq_true] at h
            simp only [pdfV2Of, List.findSome?, h, pdfTagSpec] at ih ⊢
            simpa [h] using ih
      | null => simpa [pdfV2Of, List.findSome?, pdfTagSpec] using ih
      | bool b => simpa [pdfV2Of, List.findSome?, pdfTagSpec] using ih
      | num q => simpa [pdfV2Of, List.findSome?, pdfTagSpec] using ih
      | arr xs => simpa [pdfV2Of, List.findSome?, pdfTagSpec] using ih
      | obj fs => simpa [pdfV2Of, List.findSome?, pdfTagSpec] using ih

/-- **C3.** Whenever the `keyword_list` the source reads (`layer.get(...)
or []`) is a sequence and `extract_row` returns a row, the row's
`pdf_v2` field is exactly the claim's tag: determined by the first string
element whose case-insensitive form starts with `"pdf:hazardlookup:"`
(everything after the prefix, lower-cased), and the sentinel
`"not attached to PDF V2"` when no such element exists. -/
theorem C3_extract_row_pdf_tag (layer row : List (String × JVal))
    (ks : List JVal)
    (hkw : kwOf layer = .arr ks)
    (hrow : extract_row layer = .ok row) :
    dictGet row "pdf_v2" = some (.str (pdfTagSpec ks)) := by
  unfold extract_row at hrow
  rw [hkw] at hrow
  cases hst : styleNamesOf layer with
  | error e => rw [hst] at hrow; cases hrow
  | ok style_names =>
    rw [hst] at hrow
    cases hcrs : crsStrOf layer with
    | error e => rw [hcrs] at hrow; cases hrow
    | ok crs_str =>
      rw [hcrs] at hrow
      simp only [pyIterate] at hrow
      cases hab : dictGetOr layer "abstract" (.str "") with
      | str a =>
          rw [hab] at hrow
          simp only [Except.ok.injEq] at hrow
          subst hrow
          simp [dictGet, pdfV2Of_eq_spec]
      | null => rw [hab] at hrow; cases hrow
      | bool b => rw [hab] at hrow; cases hrow
      | num q => rw [hab] at hrow; cases hrow
      | arr xs => rw [hab] at hrow; cases hrow
      | obj fs => rw [hab] at hrow; cases hrow

set_option maxRecDepth 8192 in
/-- Witness for C3 at the spec's own example: a layer whose keyword list
is `["pdf:hazardlookup:Local"]` yields the lower-cased tag `"local"`. -/
theorem C3_extract_row_pdf_tag_witness :
    kwOf [("keyword_list", JVal.arr [JVal.str "pdf:hazardlookup:Local"])]
      = .arr [JVal.str "pdf:hazardlookup:Local"]
    ∧ pdfTagSpec [JVal.str "pdf:hazardlookup:Local"] = "local"
    ∧ dictGet
        [ ("name",         .str ""), ("title", .str ""), ("abstract", .str ""),
          ("queryable",    .str ""), ("crs", .str ""),
          ("west_bound",   .str ""), ("east_bound", .str ""),
          ("north_bound",  .str ""), ("south_bound", .str ""),
          ("is_global",    .str "No"), ("_global", .bool false),
          ("pdf_v2",       .str "local"), ("style_names", .str ""),
          ("keyword_list", .str "pdf:hazardlookup:Local") ]
        "pdf_v2" = some (.str (pdfTagSpec [JVal.str "pdf:hazardlookup:Local"])) :=
  ⟨rfl, by decide,
   C3_extract_row_pdf_tag
     [("keyword_list", JVal.arr [JVal.str "pdf:hazardlookup:Local"])]
     _ [JVal.str "pdf:hazardlookup:Local"] rfl (by
       simp +decide [extract_row, bboxOf, styleNamesOf, crsStrOf, kwOf, kwStrOf,
         pdfV2Of, dictGetOr, dictGet, dictGetD, JVal.truthy, JVal.isStrB,
         JVal.isObjB, JVal.asStr, pyJoinStrs, pyIterate, pyStr, strStartsWith,
         strLower, strDrop, strStrip, is_global_bbox, pyFloat, parseFloat,
         parseDecBody, PDF_HAZARD_PREFIX, NO_PDF_LABEL, List.findSome?])⟩

set_option maxRecDepth 8192 in
/-- **C4.** The claim says `extract_row` never raises; the code does raise.
At the concrete layer `{"keyword_list": True}` the unguarded generator
`(... for k in kw ...)` iterates a non-iterable and the call raises
`TypeError` (modelled as `.error`), instead of degrading to the sentinel. -/
theorem C4_extract_row_raises_on_nonlist_keywords :
    extract_row [("keyword_list", JVal.bool true)] = .error () := rfl

set_option maxRecDepth 8192 in
-- `", ".join(crs)` likewise raises on a CRS list holding a non-string:
example : extract_row [("CRS", JVal.arr [JVal.bool true])] = .error () := rfl


-- ── Tag ordering (`sort_key` from `harvester/pdf.py`) ───────────────────────

def PDF_COLUMN : String × String := ("pdf_v2", "PDF V2")

def PDF_COL_ORDER : List String := ["global:risk", "global:additional", "local"]

/-- Python `list.index` as an `Option` (the source wraps the raising call
in `try/except ValueError`). -/
def listIndex (xs : List String) (t : String) : Option Nat :=
  match xs with
  | [] => none
  | x :: rest => if x = t then some 0 else (listIndex rest t).map (· + 1)

/-- `f"{i:04d}"`: decimal digits left-padded with zeros to width 4. -/
def pad4 (i : Nat) : String :=
  let s := toString i
  ⟨List.replicate (4 - s.length) '0' ++ s.data⟩

/-- `sort_key` from `pdf.py`: the sentinel maps to bucket 2, canonical
tags to bucket 0 carrying their zero-padded position, and unknown tags to
bucket 1 carrying the tag itself. -/
def sort_key (t : String) : Nat × String :=
  if t = NO_PDF_LABEL then (2, "")
  else
    match listIndex PDF_COL_ORDER t with
    | some i => (0, pad4 i)
    | none => (1, t)

/-- Python `<` on `(int, str)` tuples: lexicographic. -/
def keyLt (a b : Nat × String) : Prop :=
  a.1 < b.1 ∨ (a.1 = b.1 ∧ a.2 < b.2)

/-- Executable code-point comparison of character lists (Python string
`<`). -/
def charListLt : List Char → List Char → Bool
  | [], [] => false
  | [], _ :: _ => true
  | _ :: _, [] => false
  | a :: as, b :: bs => decide (a < b) || (a == b && charListLt as bs)

/-- Executable Python string `<`. -/
def pyStrLt (a b : String) : Bool := charListLt a.data b.data

/-- Executable tuple `<` mirroring `keyLt`. -/
def keyLtB (a b : Nat × String) : Bool :=
  Nat.blt a.1 b.1 || (a.1 == b.1 && pyStrLt a.2 b.2)

theorem charListLt_iff : ∀ as bs : List Char, charListLt as bs = true ↔ as < bs
  | [], [] => by
      simp only [charListLt, Bool.false_eq_true, false_iff]
      intro h; cases h
  | [], b :: bs => by
      simp only [charListLt, true_iff]
      exact List.Lex.nil
  | a :: as, [] => by
      simp only [charListLt, Bool.false_eq_true, false_iff]
      intro h; cases h
  | a :: as, b :: bs => by
      simp only [charListLt, Bool.or_eq_true, Bool.and_eq_true, decide_eq_true_eq,
        beq_iff_eq]
      constructor
      · rintro (hab | ⟨hab, h⟩)
        · exact List.Lex.rel hab
        · subst hab
          exact List.Lex.cons ((charListLt_iff as bs).mp h)
      · intro h
        cases h with
        | rel hab => exact Or.inl hab
        | cons h3 => exact Or.inr ⟨rfl, (charListLt_iff as bs).mpr h3⟩

theorem pyStrLt_iff (a b : String) : pyStrLt a b = true ↔ a < b := by
  rw [String.lt_iff_toList_lt]
  exact charListLt_iff a.data b.data

theorem keyLtB_iff (a b : Nat × String) : keyLtB a b = true ↔ keyLt a b := by
  simp [keyLtB, keyLt, Nat.blt_eq, pyStrLt_iff a.2 b.2]

/-- Python's `sorted(..., key=sort_key)`: a stable comparison sort by the
key's `<`; modelled by insertion sort (the tags in the claim's example
have pairwise distinct keys, so any correct sort gives the same list). -/
def sortTags (ts : List String) : List String :=
  List.insertionSort (fun a b => !keyLtB (sort_key b) (sort_key a) = true) ts

/-- **C5.** The tag sort key is an (integer bucket, string) pair ordered
lexicographically, a total strict order (trichotomy, asymmetry,
transitivity — never a type-comparison failure); the sentinel sorts
strictly last; canonical tags sort by list position before everything
else; unknown tags sit between the canonical ones and the sentinel,
alphabetically among themselves; and sorting the claim's five example
tags yields the claimed order. -/
theorem C5_sort_key_order (t u : String) :
    (keyLt (sort_key t) (sort_key u) ∨ sort_key t = sort_key u ∨
      keyLt (sort_key u) (sort_key t))
    ∧ (keyLt (sort_key t) (sort_key u) → ¬ keyLt (sort_key u) (sort_key t))
    ∧ (∀ w : String, keyLt (sort_key t) (sort_key u) →
        keyLt (sort_key u) (sort_key w) → keyLt (sort_key t) (sort_key w))
    ∧ (t ≠ NO_PDF_LABEL → keyLt (sort_key t) (sort_key NO_PDF_LABEL))
    ∧ (t ∈ PDF_COL_ORDER → u ∉ PDF_COL_ORDER →
        keyLt (sort_key t) (sort_key u))
    ∧ (t ∈ PDF_COL_ORDER → u ∈ PDF_COL_ORDER →
        (keyLt (sort_key t) (sort_key u) ↔
          PDF_COL_ORDER.indexOf t < PDF_COL_ORDER.indexOf u))
    ∧ (t ∉ PDF_COL_ORDER → u ∉ PDF_COL_ORDER →
        t ≠ NO_PDF_LABEL → u ≠ NO_PDF_LABEL →
        (keyLt (sort_key t) (sort_key u) ↔ t < u))
    ∧ sortTags ["local", NO_PDF_LABEL, "global:risk", "global:additional",
        "unknown:tag"]
      = ["global:risk", "global:additional", "local", "unknown:tag",
        NO_PDF_LABEL] := by
  have hnone : ∀ v : String, v ∉ PDF_COL_ORDER → listIndex PDF_COL_ORDER v = none := by
    intro v hv
    simp only [PDF_COL_ORDER, List.mem_cons, not_or, List.not_mem_nil] at hv
    simp [listIndex, Ne.symm hv.1, Ne.symm hv.2.1, Ne.symm hv.2.2.1]
  have hkey_non : ∀ v : String, v ∉ PDF_COL_ORDER → v ≠ NO_PDF_LABEL →
      sort_key v = (1, v) := by
    intro v hv hvn
    simp [sort_key, hvn, hnone v hv]
  refine ⟨?_, ?_, ?_, ?_, ?_, ?_, ?_, ?_⟩
  · rcases Nat.lt_trichotomy (sort_key t).1 (sort_key u).1 with h | h | h
    · exact Or.inl (Or.inl h)
    · rcases lt_trichotomy (sort_key t).2 (sort_key u).2 with h2 | h2 | h2
      · exact Or.inl (Or.inr ⟨h, h2⟩)
      · exact Or.inr (Or.inl (Prod.ext h h2))
      · exact Or.inr (Or.inr (Or.inr ⟨h.symm, h2⟩))
    · exact Or.inr (Or.inr (Or.inl h))
  · rintro (h | ⟨h1, h2⟩) (h' | ⟨h1', h2'⟩)
    · exact Nat.lt_asymm h h'
    · exact absurd h (by omega)
    · exact absurd h' (by omega)
    · exact lt_asymm h2 h2'
  · rintro w (h | ⟨h1, h2⟩) (h' | ⟨h1', h2'⟩)
    · exact Or.inl (Nat.lt_trans h h')
    · exact Or.inl (h1' ▸ h)
    · exact Or.inl (h1 ▸ h')
    · exact Or.inr ⟨h1.trans h1', lt_trans h2 h2'⟩
  · intro ht
    have hsent : sort_key NO_PDF_LABEL = (2, "") := by decide
    rw [hsent]
    by_cases hmem : t ∈ PDF_COL_ORDER
    · have h0 : (sort_key t).1 = 0 := by fin_cases hmem <;> decide
      exact Or.inl (by rw [h0]; norm_num)
    · rw [hkey_non t hmem ht]
      exact Or.inl (by norm_num)
  · intro ht hu
    have h0 : (sort_key t).1 = 0 := by fin_cases ht <;> decide
    by_cases hun : u = NO_PDF_LABEL
    · subst hun
      exact Or.inl (by rw [h0]; decide)
    · rw [hkey_non u hu hun]
      exact Or.inl (by rw [h0]; norm_num)
  · intro ht hu
    fin_cases ht <;> fin_cases hu <;>
      (rw [← keyLtB_iff]; decide)
  · intro ht hu htn hun
    rw [hkey_non t ht htn, hkey_non u hu hun]
    simp [keyLt]
  · decide

/-- Witness for C5: the theorem applied at the concrete tags of the
spec's example, discharging each side condition there. -/
theorem C5_sort_key_order_witness :
    keyLt (sort_key "unknown:tag") (sort_key NO_PDF_LABEL)
    ∧ keyLt (sort_key "global:risk") (sort_key "unknown:tag")
    ∧ (keyLt (sort_key "global:risk") (sort_key "global:additional") ↔
        PDF_COL_ORDER.indexOf "global:risk" < PDF_COL_ORDER.indexOf "global:additional")
    ∧ (keyLt (sort_key "unknown:sub") (sort_key "unknown:tag") ↔
        ("unknown:sub" : String) < "unknown:tag")
    ∧ sortTags ["local", NO_PDF_LABEL, "global:risk", "global:additional",
        "unknown:tag"]
      = ["global:risk", "global:additional", "local", "unknown:tag",
        NO_PDF_LABEL] :=
  ⟨(C5_sort_key_order "unknown:tag" "x").2.2.2.1 (by decide),
   (C5_sort_key_order "global:risk" "unknown:tag").2.2.2.2.1 (by decide) (by decide),
   (C5_sort_key_order "global:risk" "global:additional").2.2.2.2.2.1
     (by decide) (by decide),
   (C5_sort_key_order "unknown:sub" "unknown:tag").2.2.2.2.2.2.1
     (by decide) (by decide) (by decide) (by decide),
   (C5_sort_key_order "x" "y").2.2.2.2.2.2.2⟩


-- ── Report Builder (`write_sheet`) ──────────────────────────────────────────

/-- The four `PatternFill`s used by `write_sheet`. -/
inductive Fill where
  | header   : Fill  -- 1F4E79
  | globalRow : Fill -- FFD700 (ROW_FILL_GLOBAL)
  | oddRow   : Fill  -- D6E4F0 (ROW_FILL_ODD)
  | evenRow  : Fill  -- FFFFFF (ROW_FILL_EVEN)
  deriving DecidableEq

/-- A worksheet cell: its value and the fill assigned to it. -/
structure Cell where
  value : JVal
  fill  : Fill
  deriving DecidableEq

/-- A worksheet, modelled as the log of cell writes (later writes
override earlier ones), the log of column-width assignments, and the
freeze-panes flag. -/
structure Sheet where
  cells  : List ((Nat × Nat) × Cell)
  widths : List (Nat × Nat)
  frozen : Bool
  deriving DecidableEq

def emptySheet : Sheet := ⟨[], [], false⟩

/-- `ws.cell(row=r, column=c, value=v)` followed by the fill assignment. -/
def setCell (ws : Sheet) (r c : Nat) (v : JVal) (f : Fill) : Sheet :=
  { ws with cells := ws.cells ++ [((r, c), ⟨v, f⟩)] }

/-- The current content of a cell: the last write to that coordinate. -/
def cellAt (ws : Sheet) (r c : Nat) : Option Cell :=
  (ws.cells.reverse.find? (fun e => e.1 == (r, c))).map (·.2)

/-- The width assigned to a column (the last assignment wins). -/
def widthAt (ws : Sheet) (c : Nat) : Option Nat :=
  (ws.widths.reverse.find? (fun e => e.1 == c)).map (·.2)

/-- Header pass of `write_sheet`: `for col_idx, (key, label) in
enumerate(columns, start=1)` writing the label with the header styling. -/
def writeHeader (ws : Sheet) (columns : List (String × String))
    (colIdx : Nat) : Sheet :=
  match columns with
  | [] => ws
  | (_, label) :: rest =>
      writeHeader (setCell ws 1 colIdx (.str label) .header) rest (colIdx + 1)

/-- The three-way fill rule of `write_sheet` (`row_idx` is the sheet row,
starting at 2 for the first data row). -/
def rowFill (row : List (String × JVal)) (rowIdx : Nat) : Fill :=
  if ((dictGet row "_global").getD .null).truthy then .globalRow
  else if rowIdx % 2 == 0 then .oddRow
  else .evenRow

/-- Inner loop of the data pass: write one row's cells across the
columns, all with the row's fill. -/
def writeRowCells (ws : Sheet) (row : List (String × JVal))
    (columns : List (String × String)) (rowIdx colIdx : Nat) (f : Fill) :
    Sheet :=
  match columns with
  | [] => ws
  | (key, _) :: rest =>
      writeRowCells (setCell ws rowIdx colIdx (dictGetD row key (.str "")) f)
        row rest rowIdx (colIdx + 1) f

/-- Outer loop of the data pass: `for row_idx, row_data in
enumerate(rows, start=2)`. -/
def writeRows (ws : Sheet) (rows : List (List (String × JVal)))
    (columns : List (String × String)) (rowIdx : Nat) : Sheet :=
  match rows with
  | [] => ws
  | row :: rest =>
      writeRows (writeRowCells ws row columns rowIdx 1 (rowFill row rowIdx))
        rest columns (rowIdx + 1)

/-- `v or ""` as the width pass applies it to a read-back cell value: any
falsy value (`None`, `False`, `0`, `""`, empty containers) reads as the
empty string. -/
def orEmpty (v : JVal) : JVal := if v.truthy then v else .str ""

/-- `len(str(ws.cell(row=r, column=c).value or ""))`: the read-back length
used by the width pass; a missing cell reads as `None`. -/
def cellStrLen (ws : Sheet) (r c : Nat) : Nat :=
  (pyStr (orEmpty (((cellAt ws r c).map Cell.value).getD .null))).length

/-- `max_len` for one column: the label's length joined with the
read-back lengths of rows `2 .. len(rows)+1`. -/
def colMaxLen (ws : Sheet) (label : String) (nRows c : Nat) : Nat :=
  (List.range nRows).foldl (fun m i => max m (cellStrLen ws (i + 2) c))
    label.length

/-- Width pass of `write_sheet`: each column gets
`min(max_len + 4, 60)`. -/
def writeWidths (ws : Sheet) (nRows : Nat)
    (columns : List (String × String)) (colIdx : Nat) : Sheet :=
  match columns with
  | [] => ws
  | (_, label) :: rest =>
      writeWidths
        { ws with widths :=
            ws.widths ++ [(colIdx, min (colMaxLen ws label nRows colIdx + 4) 60)] }
        nRows rest (colIdx + 1)

/-- `write_sheet` from `core.py`: header row, data rows with the
three-way fill, column widths from the read-back pass, then freeze
panes below row 1. -/
def write_sheet (ws : Sheet) (rows : List (List (String × JVal)))
    (columns : List (String × String)) : Sheet :=
  let ws1 := writeHeader ws columns 1
  let ws2 := writeRows ws1 rows columns 2
  let ws3 := writeWidths ws2 rows.length columns 1
  { ws3 with frozen := true }


theorem cellAt_setCell (ws : Sheet) (r c : Nat) (v : JVal) (f : Fill)
    (r' c' : Nat) :
    cellAt (setCell ws r c v f) r' c'
      = if r' = r ∧ c' = c then some ⟨v, f⟩ else cellAt ws r' c' := by
  simp only [cellAt, setCell, List.reverse_append, List.reverse_cons,
    List.reverse_nil, List.nil_append, List.cons_append, List.find?]
  by_cases h : r' = r ∧ c' = c
  · obtain ⟨h1, h2⟩ := h
    subst h1; subst h2
    simp
  · have hb : (((r, c) : Nat × Nat) == (r', c')) = false := by
      rw [beq_eq_false_iff_ne]
      intro he
      rw [Prod.mk.injEq] at he
      exact h ⟨he.1.symm, he.2.symm⟩
    simp [hb, h]

theorem cellAt_frozen (ws : Sheet) (r c : Nat) :
    cellAt { ws with frozen := true } r c = cellAt ws r c := rfl

theorem writeHeader_cellAt_miss (cols : List (String × String))
    (ws : Sheet) (k r c : Nat) (h : r ≠ 1 ∨ c < k ∨ k + cols.length ≤ c) :
    cellAt (writeHeader ws cols k) r c = cellAt ws r c := by
  induction cols generalizing ws k with
  | nil => rfl
  | cons p rest ih =>
      cases p with
      | mk key label =>
          rw [writeHeader, ih _ (k + 1)
            (by rcases h with h | h | h
                · exact Or.inl h
                · exact Or.inr (Or.inl (by omega))
                · exact Or.inr (Or.inr (by simp [List.length_cons] at h ⊢; omega)))]
          rw [cellAt_setCell]
          have : ¬(r = 1 ∧ c = k) := by
            rintro ⟨h1, h2⟩
            rcases h with h | h | h
            · exact h h1
            · omega
            · simp [List.length_cons] at h; omega
          simp [this]

theorem writeHeader_cellAt_hit (cols : List (String × String))
    (ws : Sheet) (k j : Nat) (key label : String)
    (hj : cols.get? j = some (key, label)) :
    cellAt (writeHeader ws cols k) 1 (k + j) = some ⟨.str label, .header⟩ := by
  induction cols generalizing ws k j with
  | nil => cases hj
  | cons p rest ih =>
      cases p with
      | mk key' label' =>
          cases j with
          | zero =>
              simp only [List.get?] at hj
              injection hj with hj'
              injection hj' with h1 h2
              subst h2
              rw [writeHeader, writeHeader_cellAt_miss rest _ (k + 1) 1 (k + 0)
                (by omega)]
              rw [cellAt_setCell]
              simp
          | succ j' =>
              simp only [List.get?] at hj
              rw [writeHeader]
              have : k + (j' + 1) = (k + 1) + j' := by omega
              rw [this]
              exact ih _ (k + 1) j' hj

theorem writeRowCells_cellAt_miss (cols : List (String × String))
    (ws : Sheet) (row : List (String × JVal)) (r0 k : Nat) (f : Fill)
    (r c : Nat) (h : r ≠ r0 ∨ c < k ∨ k + cols.length ≤ c) :
    cellAt (writeRowCells ws row cols r0 k f) r c = cellAt ws r c := by
  induction cols generalizing ws k with
  | nil => rfl
  | cons p rest ih =>
      cases p with
      | mk key label =>
          rw [writeRowCells, ih _ (k + 1)
            (by rcases h with h | h | h
                · exact Or.inl h
                · exact Or.inr (Or.inl (by omega))
                · exact Or.inr (Or.inr (by simp [List.length_cons] at h ⊢; omega)))]
          rw [cellAt_setCell]
          have : ¬(r = r0 ∧ c = k) := by
            rintro ⟨h1, h2⟩
            rcases h with h | h | h
            · exact h h1
            · omega
            · simp [List.length_cons] at h; omega
          simp [this]

theorem writeRowCells_cellAt_hit (cols : List (String × String))
    (ws : Sheet) (row : List (String × JVal)) (r0 k : Nat) (f : Fill)
    (j : Nat) (key label : String) (hj : cols.get? j = some (key, label)) :
    cellAt (writeRowCells ws row cols r0 k f) r0 (k + j)
      = some ⟨dictGetD row key (.str ""), f⟩ := by
  induction cols generalizing ws k j with
  | nil => cases hj
  | cons p rest ih =>
      cases p with
      | mk key' label' =>
          cases j with
          | zero =>
              simp only [List.get?] at hj
              injection hj with hj'
              injection hj' with h1 h2
              subst h1
              rw [writeRowCells, writeRowCells_cellAt_miss rest _ row r0 (k + 1) f
                r0 (k + 0) (by omega)]
              rw [cellAt_setCell]
              simp
          | succ j' =>
              simp only [List.get?] at hj
              rw [writeRowCells]
              have : k + (j' + 1) = (k + 1) + j' := by omega
              rw [this]
              exact ih _ (k + 1) j' hj


theorem writeRows_cellAt_miss_row (rows : List (List (String × JVal)))
    (ws : Sheet) (cols : List (String × String)) (r0 r c : Nat)
    (h : r < r0 ∨ r0 + rows.length ≤ r) :
    cellAt (writeRows ws rows cols r0) r c = cellAt ws r c := by
  induction rows generalizing ws r0 with
  | nil => rfl
  | cons row rest ih =>
      rw [writeRows, ih _ (r0 + 1)
        (by rcases h with h | h
            · exact Or.inl (by omega)
            · exact Or.inr (by simp [List.length_cons] at h ⊢; omega))]
      exact writeRowCells_cellAt_miss cols _ row r0 1 _ r c
        (Or.inl (by rcases h with h | h
                    · omega
                    · simp [List.length_cons] at h; omega))

theorem writeRows_cellAt_miss_col (rows : List (List (String × JVal)))
    (ws : Sheet) (cols : List (String × String)) (r0 r c : Nat)
    (h : c < 1 ∨ 1 + cols.length ≤ c) :
    cellAt (writeRows ws rows cols r0) r c = cellAt ws r c := by
  induction rows generalizing ws r0 with
  | nil => rfl
  | cons row rest ih =>
      rw [writeRows, ih _ (r0 + 1)]
      exact writeRowCells_cellAt_miss cols _ row r0 1 _ r c (Or.inr h)

theorem writeRows_cellAt_hit (rows : List (List (String × JVal)))
    (ws : Sheet) (cols : List (String × String)) (r0 i j : Nat)
    (row : List (String × JVal)) (key label : String)
    (hi : rows.get? i = some row) (hj : cols.get? j = some (key, label)) :
    cellAt (writeRows ws rows cols r0) (r0 + i) (1 + j)
      = some ⟨dictGetD row key (.str ""), rowFill row (r0 + i)⟩ := by
  induction rows generalizing ws r0 i with
  | nil => cases hi
  | cons row' rest ih =>
      cases i with
      | zero =>
          simp only [List.get?] at hi
          injection hi with hi'
          rw [writeRows, hi', writeRows_cellAt_miss_row rest _ cols (r0 + 1)
            (r0 + 0) (1 + j) (Or.inl (by omega))]
          exact writeRowCells_cellAt_hit cols _ row r0 1 _ j key label hj
      | succ i' =>
          simp only [List.get?] at hi
          rw [writeRows]
          have : r0 + (i' + 1) = (r0 + 1) + i' := by omega
          rw [this]
          exact ih _ (r0 + 1) i' hi

theorem writeWidths_cells (ws : Sheet) (n : Nat)
    (cols : List (String × String)) (k : Nat) :
    (writeWidths ws n cols k).cells = ws.cells := by
  induction cols generalizing ws k with
  | nil => rfl
  | cons p rest ih =>
      cases p with
      | mk key label => rw [writeWidths, ih]

theorem writeWidths_cellAt (ws : Sheet) (n : Nat)
    (cols : List (String × String)) (k r c : Nat) :
    cellAt (writeWidths ws n cols k) r c = cellAt ws r c := by
  simp [cellAt, writeWidths_cells]

theorem widthAt_append (ws : Sheet) (c0 w c : Nat) :
    widthAt { ws with widths := ws.widths ++ [(c0, w)] } c
      = if c = c0 then some w else widthAt ws c := by
  simp only [widthAt, List.reverse_append, List.reverse_cons, List.reverse_nil,
    List.nil_append, List.cons_append, List.find?]
  by_cases h : c = c0
  · subst h; simp
  · have hb : ((c0 : Nat) == c) = false := by
      rw [beq_eq_false_iff_ne]
      exact fun he => h he.symm
    simp [hb, h]

theorem colMaxLen_widths (ws : Sheet) (w : List (Nat × Nat))
    (label : String) (n c : Nat) :
    colMaxLen { ws with widths := w } label n c = colMaxLen ws label n c := rfl

theorem writeWidths_widthAt_miss (cols : List (String × String))
    (ws : Sheet) (n k c : Nat) (h : c < k ∨ k + cols.length ≤ c) :
    widthAt (writeWidths ws n cols k) c = widthAt ws c := by
  induction cols generalizing ws k with
  | nil => rfl
  | cons p rest ih =>
      cases p with
      | mk key label =>
          rw [writeWidths, ih _ (k + 1)
            (by rcases h with h | h
                · exact Or.inl (by omega)
                · exact Or.inr (by simp [List.length_cons] at h ⊢; omega))]
          rw [widthAt_append]
          have : ¬ c = k := by
            rcases h with h | h
            · omega
            · simp [List.length_cons] at h; omega
          simp [this]

theorem writeWidths_widthAt_hit (cols : List (String × String))
    (ws : Sheet) (n k j : Nat) (key label : String)
    (hj : cols.get? j = some (key, label)) :
    widthAt (writeWidths ws n cols k) (k + j)
      = some (min (colMaxLen ws label n (k + j) + 4) 60) := by
  induction cols generalizing ws k j with
  | nil => cases hj
  | cons p rest ih =>
      cases p with
      | mk key' label' =>
          cases j with
          | zero =>
              simp only [List.get?] at hj
              injection hj with hj'
              injection hj' with h1 h2
              subst h2
              rw [writeWidths, writeWidths_widthAt_miss rest _ n (k + 1) (k + 0)
                (Or.inl (by omega))]
              rw [widthAt_append]
              simp [colMaxLen_widths]
          | succ j' =>
              simp only [List.get?] at hj
              rw [writeWidths]
              have : k + (j' + 1) = (k + 1) + j' := by omega
              rw [this]
              rw [ih _ (k + 1) j' hj]
              rw [colMaxLen_widths]


theorem widthAt_frozen (ws : Sheet) (c : Nat) :
    widthAt { ws with frozen := true } c = widthAt ws c := rfl

theorem write_sheet_cellAt_header (ws0 : Sheet)
    (rows : List (List (String × JVal))) (cols : List (String × String))
    (j : Nat) (key label : String) (hj : cols.get? j = some (key, label)) :
    cellAt (write_sheet ws0 rows cols) 1 (j + 1)
      = some ⟨.str label, .header⟩ := by
  simp only [write_sheet]
  rw [cellAt_frozen, writeWidths_cellAt,
    writeRows_cellAt_miss_row rows _ cols 2 1 (j + 1) (Or.inl (by omega))]
  rw [show j + 1 = 1 + j from by omega]
  exact writeHeader_cellAt_hit cols ws0 1 j key label hj

theorem write_sheet_cellAt_data (ws0 : Sheet)
    (rows : List (List (String × JVal))) (cols : List (String × String))
    (i j : Nat) (row : List (String × JVal)) (key label : String)
    (hi : rows.get? i = some row) (hj : cols.get? j = some (key, label)) :
    cellAt (write_sheet ws0 rows cols) (i + 2) (j + 1)
      = some ⟨dictGetD row key (.str ""), rowFill row (i + 2)⟩ := by
  simp only [write_sheet]
  rw [cellAt_frozen, writeWidths_cellAt]
  rw [show i + 2 = 2 + i from by omega, show j + 1 = 1 + j from by omega]
  exact writeRows_cellAt_hit rows _ cols 2 i j row key label hi hj

theorem cellAt_empty (r c : Nat) : cellAt emptySheet r c = none := rfl

theorem write_sheet_cellAt_outside (rows : List (List (String × JVal)))
    (cols : List (String × String)) (r c : Nat)
    (h : c = 0 ∨ cols.length < c ∨ r = 0 ∨ (r ≠ 1 ∧ rows.length + 2 ≤ r)) :
    cellAt (write_sheet emptySheet rows cols) r c = none := by
  simp only [write_sheet]
  rw [cellAt_frozen, writeWidths_cellAt]
  rcases h with h | h | h | ⟨h1, h2⟩
  · rw [writeRows_cellAt_miss_col rows _ cols 2 r c (Or.inl (by omega))]
    rw [writeHeader_cellAt_miss cols _ 1 r c (Or.inr (Or.inl (by omega)))]
    exact cellAt_empty r c
  · rw [writeRows_cellAt_miss_col rows _ cols 2 r c (Or.inr (by omega))]
    rw [writeHeader_cellAt_miss cols _ 1 r c (Or.inr (Or.inr (by omega)))]
    exact cellAt_empty r c
  · rw [writeRows_cellAt_miss_row rows _ cols 2 r c (Or.inl (by omega))]
    rw [writeHeader_cellAt_miss cols _ 1 r c (Or.inl (by omega))]
    exact cellAt_empty r c
  · rw [writeRows_cellAt_miss_row rows _ cols 2 r c (Or.inr (by omega))]
    rw [writeHeader_cellAt_miss cols _ 1 r c (Or.inl h1)]
    exact cellAt_empty r c

/-- **C6.** In `write_sheet`, every data cell of the row at 0-based index
`i` (sheet row `i + 2`, 1-based data position `i + 1`) carries the
three-way fill: the global highlight when the row's `_global` flag is
truthy, regardless of parity; otherwise one of the two fixed alternating
fills chosen solely by the parity of the data position. -/
theorem C6_data_row_fill (ws0 : Sheet) (rows : List (List (String × JVal)))
    (columns : List (String × String)) (i j : Nat)
    (row : List (String × JVal)) (key label : String)
    (hi : rows.get? i = some row) (hj : columns.get? j = some (key, label)) :
    (cellAt (write_sheet ws0 rows columns) (i + 2) (j + 1)).map Cell.fill
      = some (if ((dictGet row "_global").getD .null).truthy then Fill.globalRow
          else if (i + 1) % 2 = 1 then Fill.oddRow else Fill.evenRow) := by
  rw [write_sheet_cellAt_data ws0 rows columns i j row key label hi hj]
  have hmap : (some (⟨dictGetD row key (.str ""), rowFill row (i + 2)⟩ : Cell)).map
      Cell.fill = some (rowFill row (i + 2)) := rfl
  rw [hmap]
  congr 1
  unfold rowFill
  by_cases hg : ((dictGet row "_global").getD .null).truthy
  · simp [hg]
  · by_cases he : i % 2 = 0
    · have h1 : (i + 2) % 2 = 0 := by omega
      have h2 : (i + 1) % 2 = 1 := by omega
      simp [hg, h1, h2]
    · have h1 : (i + 2) % 2 = 1 := by omega
      have h2 : ¬ (i + 1) % 2 = 1 := by omega
      simp [hg, h1, h2]

/-- Witness for C6 at the spec's example: a `_global` row landing on the
first (odd) data position still receives the global highlight. -/
theorem C6_data_row_fill_witness :
    (cellAt (write_sheet emptySheet [[("_global", JVal.bool true)]]
        [("name", "Layer Name")]) 2 1).map Cell.fill
      = some Fill.globalRow :=
  C6_data_row_fill emptySheet [[("_global", JVal.bool true)]]
    [("name", "Layer Name")] 0 0 [("_global", JVal.bool true)]
    "name" "Layer Name" rfl rfl

theorem foldl_max_range_eq {R : Type} (rows : List R) (F : Nat → Nat)
    (G : R → Nat) (h : ∀ i row, rows.get? i = some row → F i = G row) :
    ∀ a : Nat, (List.range rows.length).foldl (fun m i => max m (F i)) a
      = rows.foldl (fun m row => max m (G row)) a := by
  induction rows generalizing F with
  | nil => intro a; rfl
  | cons row rest ih =>
      intro a
      rw [List.length_cons, List.range_succ_eq_map]
      simp only [List.foldl_cons, List.foldl_map]
      rw [h 0 row rfl]
      exact ih (fun i => F (i + 1)) (fun i r hr => h (i + 1) r hr) (max a (G row))

/-- Amended claim-side column width: `min(m + 4, 60)` where `m` joins the
label's length with `len(str(v))` for each of the column's cell values,
after missing **and falsy** values (`None`, `False`, `0`, `""`) are
replaced by the empty string. -/
def amendedColWidth (rows : List (List (String × JVal)))
    (key label : String) : Nat :=
  min ((rows.foldl (fun m row =>
      max m (pyStr (orEmpty (dictGetD row key (.str "")))).length)
    label.length) + 4) 60

/-- Original claim-side column width: `min(m + 4, 60)` where `m` joins the
label's length with the string length of every cell value, only missing
values treated as the empty string. -/
def claimColWidth (rows : List (List (String × JVal)))
    (key label : String) : Nat :=
  min ((rows.foldl (fun m row =>
      max m (pyStr (dictGetD row key (.str ""))).length) label.length) + 4) 60

/-- C7's counterexample: in the column `("q", "")` over the single row
`{"q": False}`, the width pass reads the cell back through `or ""`, so the
falsy value `False` counts as length 0 and the width is `min(0+4,60) = 4`;
the claim's formula counts `len(str(False)) = 5` and demands
`min(5+4,60) = 9`. -/
theorem C7_column_width_claim_counterexample :
    widthAt (write_sheet emptySheet [[("q", JVal.bool false)]] [("q", "")]) 1
      = some 4
    ∧ claimColWidth [[("q", JVal.bool false)]] "q" "" = 9
    ∧ widthAt (write_sheet emptySheet [[("q", JVal.bool false)]] [("q", "")]) 1
        ≠ some (claimColWidth [[("q", JVal.bool false)]] "q" "") := by
  have hwidth : widthAt (write_sheet emptySheet [[("q", JVal.bool false)]]
      [("q", "")]) 1 = some 4 := by
    have h := writeWidths_widthAt_hit [("q", "")]
      (writeRows (writeHeader emptySheet [("q", "")] 1)
        [[("q", JVal.bool false)]] [("q", "")] 2) 1 1 0 "q" "" rfl
    simp only [Nat.add_zero] at h
    simp only [write_sheet]
    rw [widthAt_frozen]
    rw [show ([[("q", JVal.bool false)]] :
      List (List (String × JVal))).length = 1 from rfl]
    rw [h]
    have hcell : cellAt (writeRows (writeHeader emptySheet [("q", "")] 1)
        [[("q", JVal.bool false)]] [("q", "")] 2) 2 1
        = some ⟨JVal.bool false, rowFill [("q", JVal.bool false)] 2⟩ := by
      have := writeRows_cellAt_hit [[("q", JVal.bool false)]]
        (writeHeader emptySheet [("q", "")] 1) [("q", "")] 2 0 0
        [("q", JVal.bool false)] "q" "" rfl rfl
      simpa [dictGetD, dictGet] using this
    have hlen : cellStrLen (writeRows (writeHeader emptySheet [("q", "")] 1)
        [[("q", JVal.bool false)]] [("q", "")] 2) 2 1 = 0 := by
      unfold cellStrLen
      rw [hcell]
      simp [orEmpty, JVal.truthy, pyStr]
    unfold colMaxLen
    have hr1 : List.range 1 = [0] := rfl
    simp +decide [hr1, hlen]
  refine ⟨hwidth, ?_, ?_⟩
  · simp [claimColWidth, dictGetD, dictGet, pyStr]
    decide
  · rw [hwidth]
    simp [claimColWidth, dictGetD, dictGet, pyStr]
    decide

/-- **C7 (amended).** Each column's width is `min(m + 4, 60)` where `m`
is the maximum of the header label's length and the lengths of the
column's cell string forms, with missing and falsy cell values (the
read-back applies `or ""`) treated as the empty string. -/
theorem C7_column_width_amended (rows : List (List (String × JVal)))
    (cols : List (String × String)) (j : Nat) (key label : String)
    (hj : cols.get? j = some (key, label)) :
    widthAt (write_sheet emptySheet rows cols) (j + 1)
      = some (amendedColWidth rows key label) := by
  simp only [write_sheet]
  rw [widthAt_frozen]
  rw [show j + 1 = 1 + j from by omega]
  rw [writeWidths_widthAt_hit cols _ rows.length 1 j key label hj]
  unfold amendedColWidth colMaxLen
  have hfold := foldl_max_range_eq rows
    (fun i => cellStrLen (writeRows (writeHeader emptySheet cols 1) rows cols 2)
      (i + 2) (1 + j))
    (fun row => (pyStr (orEmpty (dictGetD row key (.str "")))).length)
    (by
      intro i row hi
      show cellStrLen (writeRows (writeHeader emptySheet cols 1) rows cols 2)
          (i + 2) (1 + j)
        = (pyStr (orEmpty (dictGetD row key (.str "")))).length
      unfold cellStrLen
      rw [show i + 2 = 2 + i from by omega]
      rw [writeRows_cellAt_hit rows _ cols 2 i j row key label hi hj]
      rfl)
    label.length
  rw [hfold]

/-- Witness for the amended C7 at the claim's own example: a column whose
longest cell text is 50 characters under a 10-character label gets width
`min(50+4, 60) = 54`. -/
theorem C7_column_width_amended_witness :
    widthAt (write_sheet emptySheet
        [[("name", JVal.str (String.mk (List.replicate 50 'x')))]]
        [("name", "LayerName!")]) 1
      = some (amendedColWidth
          [[("name", JVal.str (String.mk (List.replicate 50 'x')))]]
          "name" "LayerName!")
    ∧ amendedColWidth
        [[("name", JVal.str (String.mk (List.replicate 50 'x')))]]
        "name" "LayerName!" = 54 :=
  ⟨C7_column_width_amended
      [[("name", JVal.str (String.mk (List.replicate 50 'x')))]]
      [("name", "LayerName!")] 0 "name" "LayerName!" rfl,
   by
     simp +decide [amendedColWidth, dictGetD, dictGet, orEmpty, JVal.truthy, pyStr]⟩

/-- **C8.** Building a sheet from extracted rows and re-reading the cell
values (ignoring styling) reproduces exactly the schema-selected fields:
row 1 holds the labels, rows 2.. hold, in input order, each row's value
at each schema key (missing keys as `""`), and no cell outside the
header/data rectangle is ever written. -/
theorem C8_sheet_round_trip (rows : List (List (String × JVal)))
    (columns : List (String × String)) :
    (∀ j key label, columns.get? j = some (key, label) →
      (cellAt (write_sheet emptySheet rows columns) 1 (j + 1)).map Cell.value
        = some (.str label))
    ∧ (∀ i row, rows.get? i = some row → ∀ j key label,
        columns.get? j = some (key, label) →
        (cellAt (write_sheet emptySheet rows columns) (i + 2) (j + 1)).map
            Cell.value
          = some (dictGetD row key (.str "")))
    ∧ (∀ r c, c = 0 ∨ columns.length < c ∨ r = 0 ∨
        (r ≠ 1 ∧ rows.length + 2 ≤ r) →
        cellAt (write_sheet emptySheet rows columns) r c = none) := by
  refine ⟨?_, ?_, ?_⟩
  · intro j key label hj
    rw [write_sheet_cellAt_header emptySheet rows columns j key label hj]
    rfl
  · intro i row hi j key label hj
    rw [write_sheet_cellAt_data emptySheet rows columns i j row key label hi hj]
    rfl
  · intro r c h
    exact write_sheet_cellAt_outside rows columns r c h

/-- Witness for C8: one row with a schema field and a non-schema field;
the label and the schema value are read back, the non-schema field is not
rendered (its would-be cell is unwritten). -/
theorem C8_sheet_round_trip_witness :
    (cellAt (write_sheet emptySheet
        [[("name", JVal.str "A"), ("pdf_v2", JVal.str "x")]]
        [("name", "Layer Name")]) 1 1).map Cell.value
      = some (.str "Layer Name")
    ∧ (cellAt (write_sheet emptySheet
        [[("name", JVal.str "A"), ("pdf_v2", JVal.str "x")]]
        [("name", "Layer Name")]) 2 1).map Cell.value
      = some (JVal.str "A")
    ∧ cellAt (write_sheet emptySheet
        [[("name", JVal.str "A"), ("pdf_v2", JVal.str "x")]]
        [("name", "Layer Name")]) 2 2 = none :=
  ⟨(C8_sheet_round_trip [[("name", JVal.str "A"), ("pdf_v2", JVal.str "x")]]
      [("name", "Layer Name")]).1 0 "name" "Layer Name" rfl,
   (C8_sheet_round_trip [[("name", JVal.str "A"), ("pdf_v2", JVal.str "x")]]
      [("name", "Layer Name")]).2.1 0
      [("name", JVal.str "A"), ("pdf_v2", JVal.str "x")] rfl
      0 "name" "Layer Name" rfl,
   (C8_sheet_round_trip [[("name", JVal.str "A"), ("pdf_v2", JVal.str "x")]]
      [("name", "Layer Name")]).2.2 2 2 (by decide)⟩


-- ── `collect_pdf_data` from `harvester/pdf.py` ──────────────────────────────

/-- The tag a row contributes: `r.get("pdf_v2", NO_PDF_LABEL)`. -/
def rowTag (r : List (String × JVal)) : JVal :=
  dictGetD r "pdf_v2" (.str NO_PDF_LABEL)

/-- Python dict lookup keyed by JSON values (`counts.get(tag)`). -/
def pdDictGet (d : List (JVal × Nat)) (k : JVal) : Option Nat :=
  match d with
  | [] => none
  | (k', v) :: rest => if k' = k then some v else pdDictGet rest k

/-- Python dict assignment `counts[tag] = v`: updates the existing binding
in place, else appends (insertion order preserved). -/
def pdDictSet (d : List (JVal × Nat)) (k : JVal) (v : Nat) : List (JVal × Nat) :=
  match d with
  | [] => [(k, v)]
  | (k', v') :: rest =>
      if k' = k then (k', v) :: rest else (k', v') :: pdDictSet rest k v

/-- The loop body of `collect_pdf_data` over the remaining rows, carrying
`all_types` and `counts`. -/
def collectPdfLoop :
    List (List (String × JVal)) → List JVal → List (JVal × Nat) →
      List JVal × List (JVal × Nat)
  | [], allTypes, counts => (allTypes, counts)
  | r :: rest, allTypes, counts =>
      let tag := rowTag r
      let counts' := pdDictSet counts tag ((pdDictGet counts tag).getD 0 + 1)
      let allTypes' := if tag ∈ allTypes then allTypes else allTypes ++ [tag]
      collectPdfLoop rest allTypes' counts'

/-- `collect_pdf_data` from `pdf.py`. -/
def collect_pdf_data (rows : List (List (String × JVal))) :
    List JVal × List (JVal × Nat) :=
  collectPdfLoop rows [] []

/-- Index of the first occurrence of `t` (claim-side notion used to state
"order of first occurrence"); `xs.length` when absent. -/
def firstIdx (xs : List JVal) (t : JVal) : Nat :=
  match xs with
  | [] => 0
  | x :: rest => if x = t then 0 else firstIdx rest t + 1

theorem firstIdx_append_left (xs ys : List JVal) (t : JVal) (h : t ∈ xs) :
    firstIdx (xs ++ ys) t = firstIdx xs t := by
  induction xs with
  | nil => cases h
  | cons x rest ih =>
      by_cases hx : x = t
      · simp [firstIdx, hx]
      · have : t ∈ rest := by
          rcases List.mem_cons.mp h with h' | h'
          · exact absurd h'.symm hx
          · exact h'
        simp [firstIdx, hx, ih this]

theorem firstIdx_append_new (xs : List JVal) (t : JVal) (h : t ∉ xs) :
    firstIdx (xs ++ [t]) t = xs.length := by
  induction xs with
  | nil => simp [firstIdx]
  | cons x rest ih =>
      have hx : x ≠ t := fun he => h (he ▸ List.mem_cons_self x rest)
      have : t ∉ rest := fun hr => h (List.mem_cons_of_mem x hr)
      simp [firstIdx, hx, ih this]

theorem firstIdx_lt_length (xs : List JVal) (t : JVal) (h : t ∈ xs) :
    firstIdx xs t < xs.length := by
  induction xs with
  | nil => cases h
  | cons x rest ih =>
      by_cases hx : x = t
      · simp [firstIdx, hx]
      · have : t ∈ rest := by
          rcases List.mem_cons.mp h with h' | h'
          · exact absurd h'.symm hx
          · exact h'
        simp [firstIdx, hx]
        exact ih this

theorem pdDictGet_none_iff (d : List (JVal × Nat)) (t : JVal) :
    pdDictGet d t = none ↔ t ∉ d.map Prod.fst := by
  induction d with
  | nil => simp [pdDictGet]
  | cons p rest ih =>
      cases p with
      | mk k v =>
          by_cases hk : k = t
          · simp [pdDictGet, hk]
          · simp [pdDictGet, hk, ih, Ne.symm hk]

theorem pdDictSet_keys_mem (d : List (JVal × Nat)) (t : JVal) (v : Nat)
    (h : t ∈ d.map Prod.fst) :
    (pdDictSet d t v).map Prod.fst = d.map Prod.fst := by
  induction d with
  | nil => simp at h
  | cons p rest ih =>
      cases p with
      | mk k v' =>
          by_cases hk : k = t
          · simp [pdDictSet, hk]
          · have : t ∈ rest.map Prod.fst := by
              simp only [List.map_cons, List.mem_cons] at h
              rcases h with h | h
              · exact absurd h.symm hk
              · exact h
            simp [pdDictSet, hk, ih this]

theorem pdDictSet_keys_new (d : List (JVal × Nat)) (t : JVal) (v : Nat)
    (h : t ∉ d.map Prod.fst) :
    (pdDictSet d t v).map Prod.fst = d.map Prod.fst ++ [t] := by
  induction d with
  | nil => simp [pdDictSet]
  | cons p rest ih =>
      cases p with
      | mk k v' =>
          have hk : k ≠ t := by
            intro he
            exact h (by simp [he])
          have : t ∉ rest.map Prod.fst := by
            intro hr
            exact h (by simp [hr])
          simp [pdDictSet, hk, ih this]

theorem pdDictSet_sum_incr (d : List (JVal × Nat)) (t : JVal) :
    ((pdDictSet d t ((pdDictGet d t).getD 0 + 1)).map Prod.snd).sum
      = ((d.map Prod.snd).sum) + 1 := by
  induction d with
  | nil => simp [pdDictSet, pdDictGet]
  | cons p rest ih =>
      cases p with
      | mk k v =>
          by_cases hk : k = t
          · simp [pdDictSet, pdDictGet, hk]
            omega
          · simp [pdDictSet, pdDictGet, hk, ih]
            omega

theorem pdDictGet_pdDictSet (d : List (JVal × Nat)) (t : JVal) (v : Nat)
    (u : JVal) :
    pdDictGet (pdDictSet d t v) u = if t = u then some v else pdDictGet d u := by
  induction d with
  | nil =>
      by_cases hu : t = u
      · simp [pdDictSet, pdDictGet, hu]
      · simp [pdDictSet, pdDictGet, hu]
  | cons p rest ih =>
      cases p with
      | mk k v' =>
          by_cases hk : k = t
          · subst hk
            by_cases hu : k = u
            · simp [pdDictSet, pdDictGet, hu]
            · simp [pdDictSet, pdDictGet, hu]
          · by_cases hu : k = u
            · have ht : ¬ t = u := fun he => hk (he ▸ hu)
              have ht2 : ¬ u = t := fun he => ht he.symm
              simp [pdDictSet, pdDictGet, hk, hu, ht, ht2]
            · simp [pdDictSet, pdDictGet, hk, hu, ih]


/-- Invariant-carrying correctness of the `collect_pdf_data` loop. -/
theorem collectPdfLoop_spec (rows : List (List (String × JVal)))
    (seen allTypes : List JVal) (counts : List (JVal × Nat))
    (h1 : allTypes.Nodup)
    (h2 : ∀ t, t ∈ allTypes ↔ t ∈ seen)
    (h3 : counts.map Prod.fst = allTypes)
    (h4 : (counts.map Prod.snd).sum = seen.length)
    (h5 : ∀ t n, pdDictGet counts t = some n → 0 < n)
    (h6 : ∀ a b, a ∈ allTypes → b ∈ allTypes →
        (firstIdx allTypes a < firstIdx allTypes b ↔
          firstIdx seen a < firstIdx seen b)) :
    (collectPdfLoop rows allTypes counts).1.Nodup
    ∧ (∀ t, t ∈ (collectPdfLoop rows allTypes counts).1 ↔
        t ∈ seen ++ rows.map rowTag)
    ∧ ((collectPdfLoop rows allTypes counts).2.map Prod.fst
        = (collectPdfLoop rows allTypes counts).1)
    ∧ (((collectPdfLoop rows allTypes counts).2.map Prod.snd).sum
        = (seen ++ rows.map rowTag).length)
    ∧ (∀ t n, pdDictGet (collectPdfLoop rows allTypes counts).2 t = some n →
        0 < n)
    ∧ (∀ a b, a ∈ (collectPdfLoop rows allTypes counts).1 →
        b ∈ (collectPdfLoop rows allTypes counts).1 →
        (firstIdx (collectPdfLoop rows allTypes counts).1 a
            < firstIdx (collectPdfLoop rows allTypes counts).1 b ↔
          firstIdx (seen ++ rows.map rowTag) a
            < firstIdx (seen ++ rows.map rowTag) b)) := by
  induction rows generalizing seen allTypes counts with
  | nil =>
      simp only [collectPdfLoop, List.map_nil, List.append_nil]
      exact ⟨h1, h2, h3, h4, h5, h6⟩
  | cons r rest ih =>
      simp only [collectPdfLoop, List.map_cons]
      have hassoc : seen ++ rowTag r :: rest.map rowTag
          = (seen ++ [rowTag r]) ++ rest.map rowTag := by simp
      rw [hassoc]
      by_cases hmem : rowTag r ∈ allTypes
      · simp only [hmem, if_true]
        refine ih (seen ++ [rowTag r]) allTypes _ h1 ?_
          ?_ ?_ ?_ ?_
        · intro t
          rw [h2]
          constructor
          · intro h; exact List.mem_append_left _ h
          · intro h
            rcases List.mem_append.mp h with h | h
            · exact h
            · rcases List.mem_singleton.mp h with rfl
              exact (h2 _).mp hmem
        · rw [pdDictSet_keys_mem counts (rowTag r) _ (h3 ▸ hmem), h3]
        · rw [pdDictSet_sum_incr, h4]
          simp
        · intro t n hget
          rw [pdDictGet_pdDictSet] at hget
          by_cases ht : rowTag r = t
          · simp [ht] at hget; omega
          · simp [ht] at hget
            exact h5 t n hget
        · intro a b ha hb
          rw [firstIdx_append_left seen _ a ((h2 a).mp ha),
            firstIdx_append_left seen _ b ((h2 b).mp hb)]
          exact h6 a b ha hb
      · simp only [hmem, if_false]
        have hnew : rowTag r ∉ seen := fun h => hmem ((h2 _).mpr h)
        have hget : pdDictGet counts (rowTag r) = none :=
          (pdDictGet_none_iff counts (rowTag r)).mpr (h3 ▸ hmem)
        refine ih (seen ++ [rowTag r]) (allTypes ++ [rowTag r]) _ ?_ ?_ ?_ ?_ ?_ ?_
        · rw [List.nodup_append]
          refine ⟨h1, List.nodup_singleton _, ?_⟩
          intro x hx hx2
          rcases List.mem_singleton.mp hx2 with rfl
          exact hmem hx
        · intro t
          simp only [List.mem_append, List.mem_singleton, h2]
        · rw [pdDictSet_keys_new counts (rowTag r) _ (h3 ▸ hmem), h3]
        · rw [pdDictSet_sum_incr, h4]
          simp
        · intro t n hg
          rw [pdDictGet_pdDictSet] at hg
          by_cases ht : rowTag r = t
          · simp [ht] at hg; omega
          · simp [ht] at hg
            exact h5 t n hg
        · intro a b ha hb
          rcases List.mem_append.mp ha with ha' | ha'
          · rcases List.mem_append.mp hb with hb' | hb'
            · rw [firstIdx_append_left allTypes _ a ha',
                firstIdx_append_left allTypes _ b hb',
                firstIdx_append_left seen _ a ((h2 a).mp ha'),
                firstIdx_append_left seen _ b ((h2 b).mp hb')]
              exact h6 a b ha' hb'
            · rcases List.mem_singleton.mp hb' with rfl
              rw [firstIdx_append_left allTypes _ a ha',
                firstIdx_append_new allTypes _ hmem,
                firstIdx_append_left seen _ a ((h2 a).mp ha'),
                firstIdx_append_new seen _ hnew]
              constructor
              · intro _; exact firstIdx_lt_length seen a ((h2 a).mp ha')
              · intro _; exact firstIdx_lt_length allTypes a ha'
          · rcases List.mem_singleton.mp ha' with rfl
            rcases List.mem_append.mp hb with hb' | hb'
            · rw [firstIdx_append_left allTypes _ b hb',
                firstIdx_append_new allTypes _ hmem,
                firstIdx_append_left seen _ b ((h2 b).mp hb'),
                firstIdx_append_new seen _ hnew]
              constructor
              · intro hlt
                exact absurd (firstIdx_lt_length allTypes b hb') (by omega)
              · intro hlt
                exact absurd (firstIdx_lt_length seen b ((h2 b).mp hb')) (by omega)
            · rcases List.mem_singleton.mp hb' with rfl
              rw [firstIdx_append_new allTypes _ hmem,
                firstIdx_append_new seen _ hnew]
              simp

/-- **C9.** `collect_pdf_data` returns `(all_types, counts)` where
`all_types` lists each distinct `pdf_v2` tag exactly once in order of
first occurrence in the input, `counts` maps exactly those tags (its key
list equals `all_types`) to strictly positive integers, and the counts
sum to the number of input rows. -/
theorem C9_collect_pdf_data (rows : List (List (String × JVal))) :
    (collect_pdf_data rows).1.Nodup
    ∧ (∀ t, t ∈ (collect_pdf_data rows).1 ↔ t ∈ rows.map rowTag)
    ∧ ((collect_pdf_data rows).2.map Prod.fst = (collect_pdf_data rows).1)
    ∧ (((collect_pdf_data rows).2.map Prod.snd).sum = rows.length)
    ∧ (∀ t n, pdDictGet (collect_pdf_data rows).2 t = some n → 0 < n)
    ∧ (∀ a b, a ∈ (collect_pdf_data rows).1 → b ∈ (collect_pdf_data rows).1 →
        (firstIdx (collect_pdf_data rows).1 a
            < firstIdx (collect_pdf_data rows).1 b ↔
          firstIdx (rows.map rowTag) a < firstIdx (rows.map rowTag) b)) := by
  have h := collectPdfLoop_spec rows [] [] []
    (List.nodup_nil) (by simp) (by simp) (by simp)
    (by intro t n h; cases h) (by intro a b ha hb; cases ha)
  simp only [List.nil_append] at h
  have hlen : (rows.map rowTag).length = rows.length := by simp
  exact ⟨h.1, h.2.1, h.2.2.1, hlen ▸ h.2.2.2.1, h.2.2.2.2.1, h.2.2.2.2.2⟩

/-- Witness for C9 on two `"local"` rows and one row without the field:
the theorem applied at that input, with the hypotheses of its positivity
and ordering parts discharged concretely. -/
theorem C9_collect_pdf_data_witness :
    (0 : Nat) < 2
    ∧ ((collect_pdf_data
          [[("pdf_v2", JVal.str "local")], [("pdf_v2", JVal.str "local")], []]).2.map
        Prod.snd).sum = 3
    ∧ (firstIdx (collect_pdf_data
          [[("pdf_v2", JVal.str "local")], [("pdf_v2", JVal.str "local")], []]).1
          (JVal.str "local")
        < firstIdx (collect_pdf_data
          [[("pdf_v2", JVal.str "local")], [("pdf_v2", JVal.str "local")], []]).1
          (JVal.str NO_PDF_LABEL)) :=
  ⟨(C9_collect_pdf_data
      [[("pdf_v2", JVal.str "local")], [("pdf_v2", JVal.str "local")], []]).2.2.2.2.1
      (JVal.str "local") 2 (by decide),
   (C9_collect_pdf_data
      [[("pdf_v2", JVal.str "local")], [("pdf_v2", JVal.str "local")], []]).2.2.2.1,
   ((C9_collect_pdf_data
      [[("pdf_v2", JVal.str "local")], [("pdf_v2", JVal.str "local")], []]).2.2.2.2.2
      (JVal.str "local") (JVal.str NO_PDF_LABEL) (by decide) (by decide)).mpr
      (by decide)⟩


-- ── Schema constants and the PDF-mode insertions ────────────────────────────

/-- `BASE_COLUMNS` from `core.py`. -/
def BASE_COLUMNS : List (String × String) :=
  [ ("name",         "Layer Name"),
    ("title",        "Title"),
    ("abstract",     "Abstract"),
    ("queryable",    "Queryable"),
    ("crs",          "CRS"),
    ("west_bound",   "West Bound Lon"),
    ("east_bound",   "East Bound Lon"),
    ("north_bound",  "North Bound Lat"),
    ("south_bound",  "South Bound Lat"),
    ("is_global",    "Is Global"),
    ("style_names",  "Style Name(s)"),
    ("keyword_list", "Keywords") ]

/-- `BASE_COLUMN_DESCRIPTIONS` from `core.py` (the "Is Global" text has
the two thresholds interpolated). -/
def BASE_COLUMN_DESCRIPTIONS : List (String × String) :=
  [ ("Layer Name",      "The WMS layer identifier (e.g. GRAPHRASTER:fires_final)."),
    ("Title",           "Human-readable display name of the layer."),
    ("Abstract",        "Brief description of the layer's content or purpose."),
    ("Queryable",       "1 = layer supports GetFeatureInfo requests; 0 = display-only."),
    ("CRS",             "Comma-separated list of supported coordinate reference systems."),
    ("West Bound Lon",  "Western edge of the bounding box in decimal degrees (−180 to 180)."),
    ("East Bound Lon",  "Eastern edge of the bounding box in decimal degrees (−180 to 180)."),
    ("North Bound Lat", "Northern edge of the bounding box in decimal degrees (−90 to 90)."),
    ("South Bound Lat", "Southern edge of the bounding box in decimal degrees (−90 to 90)."),
    ("Is Global",       "'Yes' when the layer's bbox spans ≥ 340° longitude AND ≥ 120° latitude, indicating worldwide coverage. 'No' for regional or country-level layers."),
    ("Style Name(s)",   "Comma-separated WMS style names available for this layer."),
    ("Keywords",        "Full keyword_list from the capabilities document, comma-separated.") ]

/-- A tiny heap of Python list objects (the values are `(str, str)` pair
lists), addressed by allocation order — just enough to state that the
module-level schema constants are never mutated by the PDF-mode helpers. -/
structure PyHeap where
  store : List (List (String × String))

/-- Dereference: the list object at address `a`. -/
def readRef (h : PyHeap) (a : Nat) : List (String × String) :=
  (h.store.get? a).getD []

/-- Overwrite the list object at address `a` (Python in-place mutation). -/
def writeRef (h : PyHeap) (a : Nat) (v : List (String × String)) : PyHeap :=
  ⟨h.store.set a v⟩

/-- Allocate a fresh list object, returning its address. -/
def alloc (h : PyHeap) (v : List (String × String)) : PyHeap × Nat :=
  (⟨h.store ++ [v]⟩, h.store.length)

/-- Python `list.insert(i, x)`: insert before index `i` (clamped). -/
def pyInsertAt (l : List (String × String)) (i : Nat) (x : String × String) :
    List (String × String) :=
  l.take i ++ x :: l.drop i

/-- In-place `l.insert(i, x)` on the object at address `a`. -/
def listInsert (h : PyHeap) (a i : Nat) (x : String × String) : PyHeap :=
  writeRef h a (pyInsertAt (readRef h a) i x)

/-- `active_columns` from `pdf.py` as a heap program: `cols =
list(BASE_COLUMNS)` (a fresh copy), find the `is_global` key (default
`len(cols) - 1`), `cols.insert(idx + 1, PDF_COLUMN)`, return `cols`. -/
def active_columns (h : PyHeap) (base : Nat) : PyHeap × Nat :=
  let h1 := (alloc h (readRef h base)).1
  let cols := (alloc h (readRef h base)).2
  let lst := readRef h1 cols
  let idx := (lst.findIdx? (fun p => p.1 == "is_global")).getD (lst.length - 1)
  (listInsert h1 cols (idx + 1) PDF_COLUMN, cols)

/-- The `col_descs` computation of `write_legend_sheet` in `core.py` as a
heap program: `col_descs = list(BASE_COLUMN_DESCRIPTIONS)`; with an
`extra_col_desc`, insert it after the "Is Global" entry, or append when
that anchor is absent; return `col_descs`. -/
def write_legend_coldescs (h : PyHeap) (base : Nat)
    (extra : Option (String × String)) : PyHeap × Nat :=
  let h1 := (alloc h (readRef h base)).1
  let cd := (alloc h (readRef h base)).2
  match extra with
  | none => (h1, cd)
  | some e =>
      match (readRef h1 cd).findIdx? (fun p => p.1 == "Is Global") with
      | some i => (listInsert h1 cd (i + 1) e, cd)
      | none => (writeRef h1 cd (readRef h1 cd ++ [e]), cd)

theorem get?_set_self {α : Type} (l : List α) (i : Nat) (v : α)
    (h : i < l.length) : (l.set i v).get? i = some v := by
  induction l generalizing i with
  | nil => simp at h
  | cons x rest ih =>
      cases i with
      | zero => rfl
      | succ i' =>
          simp only [List.set, List.get?]
          exact ih i' (by simpa using h)

theorem get?_set_other {α : Type} (l : List α) (i j : Nat) (v : α)
    (h : i ≠ j) : (l.set i v).get? j = l.get? j := by
  induction l generalizing i j with
  | nil => simp
  | cons x rest ih =>
      cases i with
      | zero =>
          cases j with
          | zero => exact absurd rfl h
          | succ j' => rfl
      | succ i' =>
          cases j with
          | zero => rfl
          | succ j' =>
              simp only [List.set, List.get?]
              exact ih i' j' (fun he => h (by omega))

theorem get?_append_lt {α : Type} (l m : List α) (i : Nat)
    (h : i < l.length) : (l ++ m).get? i = l.get? i := by
  induction l generalizing i with
  | nil => simp at h
  | cons x rest ih =>
      cases i with
      | zero => rfl
      | succ i' =>
          simp only [List.cons_append, List.get?]
          exact ih i' (by simpa using h)

theorem get?_append_length {α : Type} (l : List α) (v : α) :
    (l ++ [v]).get? l.length = some v := by
  induction l with
  | nil => rfl
  | cons x rest ih => simp [ih]


/-- `PDF_COLUMN_DESCRIPTION` from `pdf.py` (prefix and sentinel
interpolated). -/
def PDF_COLUMN_DESCRIPTION : String × String :=
  ("PDF V2",
   "Suffix extracted from the 'pdf:hazardlookup:<keyword>' entry in the keyword_list (e.g. 'local', 'global:risk', 'global:additional'). Shows 'not attached to PDF V2' when no such keyword is present.")

theorem readRef_lt_of_eq_base (h : PyHeap) (a : Nat)
    (l : List (String × String)) (hne : l ≠ [])
    (hbase : readRef h a = l) : a < h.store.length := by
  by_contra hge
  push_neg at hge
  have hnone : h.store.get? a = none := by
    rw [List.get?_eq_none]
    omega
  rw [readRef, hnone] at hbase
  exact hne hbase.symm

theorem active_columns_eq (h : PyHeap) (a : Nat)
    (hbase : readRef h a = BASE_COLUMNS) :
    active_columns h a
      = (writeRef ⟨h.store ++ [BASE_COLUMNS]⟩ h.store.length
          (pyInsertAt BASE_COLUMNS 10 PDF_COLUMN), h.store.length) := by
  have hrr : readRef ⟨h.store ++ [BASE_COLUMNS]⟩ h.store.length
      = BASE_COLUMNS := by
    rw [readRef, get?_append_length]
    rfl
  have hfind : BASE_COLUMNS.findIdx? (fun p => p.1 == "is_global")
      = some 9 := by decide
  simp only [active_columns, alloc, hbase, listInsert, hrr, hfind,
    Option.getD_some]

/-- **C10.** Neither `active_columns` nor the legend's `col_descs`
computation mutates the module constants: after either call the object
holding `BASE_COLUMNS` (resp. `BASE_COLUMN_DESCRIPTIONS`) is unchanged —
each inserts into a fresh copy — and `active_columns` returns a list one
longer than `BASE_COLUMNS` with `("pdf_v2", "PDF V2")` placed immediately
after the `is_global` entry (index 9, so the pair sits at index 10);
the legend computation splices its extra entry after "Is Global"
likewise. -/
theorem C10_schema_constants_not_mutated (h h' : PyHeap) (a b : Nat)
    (extra : String × String)
    (hbase : readRef h a = BASE_COLUMNS)
    (hdesc : readRef h' b = BASE_COLUMN_DESCRIPTIONS) :
    readRef (active_columns h a).1 a = BASE_COLUMNS
    ∧ readRef (active_columns h a).1 (active_columns h a).2
        = BASE_COLUMNS.take 10 ++ PDF_COLUMN :: BASE_COLUMNS.drop 10
    ∧ (readRef (active_columns h a).1 (active_columns h a).2).length
        = BASE_COLUMNS.length + 1
    ∧ (readRef (active_columns h a).1 (active_columns h a).2).get? 9
        = some ("is_global", "Is Global")
    ∧ (readRef (active_columns h a).1 (active_columns h a).2).get? 10
        = some PDF_COLUMN
    ∧ readRef (write_legend_coldescs h' b (some extra)).1 b
        = BASE_COLUMN_DESCRIPTIONS
    ∧ readRef (write_legend_coldescs h' b none).1 b
        = BASE_COLUMN_DESCRIPTIONS
    ∧ readRef (write_legend_coldescs h' b (some extra)).1
        (write_legend_coldescs h' b (some extra)).2
      = BASE_COLUMN_DESCRIPTIONS.take 10 ++ extra ::
          BASE_COLUMN_DESCRIPTIONS.drop 10 := by
  have ha : a < h.store.length :=
    readRef_lt_of_eq_base h a BASE_COLUMNS (by decide) hbase
  have hb : b < h'.store.length :=
    readRef_lt_of_eq_base h' b BASE_COLUMN_DESCRIPTIONS (by decide) hdesc
  have hact := active_columns_eq h a hbase
  have hrr' : readRef ⟨h'.store ++ [BASE_COLUMN_DESCRIPTIONS]⟩
      h'.store.length = BASE_COLUMN_DESCRIPTIONS := by
    rw [readRef, get?_append_length]
    rfl
  have hfind' : BASE_COLUMN_DESCRIPTIONS.findIdx?
      (fun p => p.1 == "Is Global") = some 9 := by decide
  have hleg : write_legend_coldescs h' b (some extra)
      = (writeRef ⟨h'.store ++ [BASE_COLUMN_DESCRIPTIONS]⟩ h'.store.length
          (pyInsertAt BASE_COLUMN_DESCRIPTIONS 10 extra), h'.store.length) := by
    simp only [write_legend_coldescs, alloc, hdesc, listInsert, hrr', hfind']
  have hlegn : write_legend_coldescs h' b none
      = (⟨h'.store ++ [BASE_COLUMN_DESCRIPTIONS]⟩, h'.store.length) := by
    simp only [write_legend_coldescs, alloc, hdesc]
  refine ⟨?_, ?_, ?_, ?_, ?_, ?_, ?_, ?_⟩
  · rw [hact]
    simp only [readRef, writeRef]
    rw [get?_set_other _ _ _ _ (by omega), get?_append_lt _ _ _ ha]
    exact hbase
  · rw [hact]
    simp only [readRef, writeRef]
    rw [get?_set_self _ _ _ (by simp)]
    rfl
  · rw [hact]
    simp only [readRef, writeRef]
    rw [get?_set_self _ _ _ (by simp)]
    decide
  · rw [hact]
    simp only [readRef, writeRef]
    rw [get?_set_self _ _ _ (by simp)]
    decide
  · rw [hact]
    simp only [readRef, writeRef]
    rw [get?_set_self _ _ _ (by simp)]
    decide
  · rw [hleg]
    simp only [readRef, writeRef]
    rw [get?_set_other _ _ _ _ (by omega), get?_append_lt _ _ _ hb]
    exact hdesc
  · rw [hlegn]
    simp only [readRef]
    rw [get?_append_lt _ _ _ hb]
    exact hdesc
  · rw [hleg]
    simp only [readRef, writeRef]
    rw [get?_set_self _ _ _ (by simp)]
    rfl

/-- Witness for C10 on a concrete one-object heap per constant, with the
legend's extra entry being `PDF_COLUMN_DESCRIPTION` as in PDF mode. -/
theorem C10_schema_constants_not_mutated_witness :
    readRef (active_columns ⟨[BASE_COLUMNS]⟩ 0).1 0 = BASE_COLUMNS
    ∧ readRef (write_legend_coldescs ⟨[BASE_COLUMN_DESCRIPTIONS]⟩ 0
        (some PDF_COLUMN_DESCRIPTION)).1 0 = BASE_COLUMN_DESCRIPTIONS
    ∧ (readRef (active_columns ⟨[BASE_COLUMNS]⟩ 0).1
        (active_columns ⟨[BASE_COLUMNS]⟩ 0).2).get? 10 = some PDF_COLUMN :=
  ⟨(C10_schema_constants_not_mutated ⟨[BASE_COLUMNS]⟩
      ⟨[BASE_COLUMN_DESCRIPTIONS]⟩ 0 0 PDF_COLUMN_DESCRIPTION rfl rfl).1,
   (C10_schema_constants_not_mutated ⟨[BASE_COLUMNS]⟩
      ⟨[BASE_COLUMN_DESCRIPTIONS]⟩ 0 0 PDF_COLUMN_DESCRIPTION rfl rfl).2.2.2.2.2.1,
   (C10_schema_constants_not_mutated ⟨[BASE_COLUMNS]⟩
      ⟨[BASE_COLUMN_DESCRIPTIONS]⟩ 0 0 PDF_COLUMN_DESCRIPTION rfl rfl).2.2.2.2.1⟩

end Harvester
